import Mathlib

/-!
Shallow embedding of the ANDES MCP server core: the session lifecycle
manager (`src/andes/mcp/utils/session.py`) and the result-serialization /
downsampling pipeline (`src/andes/mcp/utils/serialization.py`,
`src/andes/mcp/tools/results.py`).

Conventions of the embedding:
* machine times (`time.time()` floats) are modelled as `Nat` instants;
  the expiry comparison `now - last_accessed > timeout` is taken over
  truncated `Nat` subtraction, which agrees with the Python float
  comparison whenever `now ≥ last_accessed` and also when `now <
  last_accessed` (both sides then report "not expired", since a negative
  float is never `> timeout ≥ 0` and `Nat` subtraction truncates to `0`);
* numeric samples carried by the arrays are an opaque type parameter `α`
  (the pipeline never computes with the values, it only selects and
  reorders containers);
* Python dicts keyed by unique ids are association lists in insertion
  order (CPython dicts preserve insertion order, which is what
  `min(self.sessions.keys(), key=...)` iterates in);
* `uuid.uuid4()` is modelled by letting the caller of `create_session`
  supply the fresh id.
-/

namespace AndesMCP

/-! ### Downsampling primitive

`serialize_tds_results` downsamples with the Python slice `a[::step]`
(`step ≥ 1`): every `step`-th element starting at index 0. -/

/-- Worker for the slice `a[::s]`: `c` counts the elements still to skip
before the next taken one (`0` = take now, then skip `s - 1`). -/
def everyNthGo (s : Nat) : List α → Nat → List α
  | [], _ => []
  | x :: xs, 0 => x :: everyNthGo s xs (s - 1)
  | _ :: xs, c + 1 => everyNthGo s xs c

/-- Python's `a[::s]` for `s ≥ 1`: elements at indices `0, s, 2*s, …` of
`l`, in original order.  (A stride of 0 is never reached by the code: the
computed stride `len // max_points` is at least 1 whenever the
downsampling guard fires.) -/
def everyNth (l : List α) (s : Nat) : List α := everyNthGo s l 0

/-- Skipping `c` elements with the counter is dropping `c` elements. -/
theorem everyNthGo_skip (s : Nat) (l : List α) (c : Nat) :
    everyNthGo s l c = everyNthGo s (l.drop c) 0 := by
  induction l generalizing c with
  | nil => simp [everyNthGo]
  | cons x xs ih =>
    cases c with
    | zero => simp
    | succ c =>
      show everyNthGo s xs c = _
      rw [List.drop_succ_cons, ih]

@[simp] theorem everyNth_nil (s : Nat) : everyNth ([] : List α) s = [] := by
  simp [everyNth, everyNthGo]

/-- The slice keeps the head and restarts after dropping `s - 1`
elements. -/
theorem everyNth_cons (x : α) (xs : List α) (s : Nat) :
    everyNth (x :: xs) s = x :: everyNth (xs.drop (s - 1)) s := by
  simp only [everyNth]
  show x :: everyNthGo s xs (s - 1) = _
  rw [everyNthGo_skip]

/-- Taking every 1st element is the identity. -/
theorem everyNth_one (l : List α) : everyNth l 1 = l := by
  induction l with
  | nil => simp
  | cons x xs ih => rw [everyNth_cons]; simpa using ih

/-- `a[::s]` has `⌈L/s⌉ = (L + s - 1) / s` elements (for `s ≥ 1`). -/
theorem everyNth_length (l : List α) (s : Nat) (hs : 1 ≤ s) :
    (everyNth l s).length = (l.length + s - 1) / s := by
  generalize hn : l.length = n
  induction n using Nat.strong_induction_on generalizing l with
  | _ n ih =>
    cases l with
    | nil =>
      simp only [List.length_nil] at hn
      subst hn
      simp only [everyNth_nil, List.length_nil]
      symm
      exact Nat.div_eq_of_lt (by omega)
    | cons x xs =>
      simp only [List.length_cons] at hn
      subst hn
      rw [everyNth_cons]
      have hdrop : (xs.drop (s - 1)).length = xs.length - (s - 1) := by
        simp [List.length_drop]
      have hlt : (xs.drop (s - 1)).length < xs.length + 1 := by
        rw [hdrop]; omega
      have ihx := ih _ hlt (xs.drop (s - 1)) rfl
      simp only [List.length_cons, ihx, hdrop]
      -- arithmetic: 1 + ((xs.length - (s-1)) + s - 1) / s = (xs.length + 1 + s - 1) / s
      rcases le_or_lt s xs.length with hle | hlt2
      · have h1 : xs.length - (s - 1) + s - 1 = xs.length - s + s := by omega
        have h2 : xs.length + 1 + s - 1 = xs.length - s + s + s := by omega
        rw [h1, h2, Nat.add_div_right _ (show 0 < s by omega),
          Nat.add_div_right _ (show 0 < s by omega),
          Nat.add_div_right _ (show 0 < s by omega)]
      · have h0 : xs.length - (s - 1) + s - 1 < s := by omega
        have h1 : (xs.length - (s - 1) + s - 1) / s = 0 := Nat.div_eq_of_lt h0
        have h2 : xs.length + 1 + s - 1 = xs.length + s := by omega
        rw [h1, h2, Nat.add_div_right _ (show 0 < s by omega), Nat.div_eq_of_lt hlt2]

/-- A drop shifts `getD` indices. -/
theorem getD_drop (l : List α) (i j : Nat) (d : α) :
    (l.drop i).getD j d = l.getD (i + j) d := by
  simp [List.getD_eq_getElem?_getD, List.getElem?_drop]

/-- Element `i` of `a[::s]` is element `i*s` of `a` (for `s ≥ 1`): each
returned point originates from original sample index `i * s`. -/
theorem everyNth_getD (l : List α) (s : Nat) (hs : 1 ≤ s) (d : α)
    (i : Nat) (hi : i < (everyNth l s).length) :
    (everyNth l s).getD i d = l.getD (i * s) d := by
  induction i generalizing l with
  | zero =>
    cases l with
    | nil => simp at hi
    | cons x xs => rw [everyNth_cons]; simp
  | succ i ih =>
    cases l with
    | nil => simp at hi
    | cons x xs =>
      rw [everyNth_cons] at hi ⊢
      simp only [List.getD_cons_succ]
      have hi' : i < (everyNth (xs.drop (s - 1)) s).length := by
        simpa using hi
      rw [ih _ hi', getD_drop]
      have harith : s - 1 + i * s = i * s + s - 1 := by omega
      rw [harith]
      have harith2 : (i + 1) * s = i * s + s - 1 + 1 := by
        have h5 : (i + 1) * s = i * s + s := by ring
        omega
      rw [harith2, List.getD_cons_succ]

/-! ### Result serialization (`serialize_tds_results` in
`utils/serialization.py`, `get_tds_results` in `tools/results.py`) -/

/-- The downsampling guard and stride of `serialize_tds_results`:
`if max_points and len(time_array) > max_points: step = len(time_array) // max_points`.
Returns `some step` when downsampling fires and `none` otherwise; a Python
`max_points` of `None` or `0` is falsy, so the guard never fires for it. -/
def downsampleFactor (max_points : Option Nat) (L : Nat) : Option Nat :=
  match max_points with
  | none => none
  | some m => if m ≠ 0 ∧ L > m then some (L / m) else none

/-- The downsampling transformation `serialize_tds_results` applies to one
sequence (the §4.2 `Downsampler`): slice `a[::step]` with
`step = len(a) // max_points` when the guard fires, the sequence unchanged
otherwise. -/
def downsampleList (l : List α) (max_points : Option Nat) : List α :=
  match downsampleFactor max_points l.length with
  | none => l
  | some s => everyNth l s

/-- Time-series store of the DAE (`dae.ts`): time axis `t` plus row-major
matrices `x`, `y` with one row per time step and one column per variable. -/
structure DaeTS (α : Type) where
  t : List α
  x : List (List α)
  y : List (List α)

/-- The DAE view consumed by the serializer: the time-series store and the
state/algebraic variable name lists. -/
structure Dae (α : Type) where
  ts : DaeTS α
  x_name : List String
  y_name : List String

/-- The TDS routine flags read by the serializer (`system.TDS`). -/
structure TDSRoutine where
  initialized : Bool
  busted : Bool
  exec_time : Option Int

/-- The slice of an ANDES `System` object that `serialize_tds_results` and
`get_tds_results` read. -/
structure AndesSystem (α : Type) where
  TDS : TDSRoutine
  dae : Dae α

/-- Column `j` of a row-major matrix (numpy `arr[:, j]`): one entry per
time step. A row shorter than `j + 1` contributes the default element
(unreachable for well-formed engine output, whose rows all have one entry
per named variable). -/
def col [Inhabited α] (m : List (List α)) (j : Nat) : List α :=
  m.map (fun row => row.getD j default)

/-- Variable selection of `serialize_tds_results`: with `«variables» = None`
all state variables (each `x_name[i]` paired with column `i` of `ts.x`);
otherwise each requested name is looked up first among state names, then
among algebraic names (first index, Python `list.index`), and unknown
names are silently dropped. -/
def selectVars [Inhabited α] (dae : Dae α) («variables» : Option (List String)) :
    List (String × List α) :=
  match «variables» with
  | none => dae.x_name.enum.map (fun p => (p.2, col dae.ts.x p.1))
  | some vs => vs.filterMap (fun v =>
      if v ∈ dae.x_name then some (v, col dae.ts.x (dae.x_name.indexOf v))
      else if v ∈ dae.y_name then some (v, col dae.ts.y (dae.y_name.indexOf v))
      else none)

/-- The result dict built by `serialize_tds_results` / `get_tds_results`.
Every field is optional because the Python dict only carries the keys the
taken branch sets (`none` = key absent). -/
structure TdsPayload (α : Type) where
  initialized : Option Bool := none
  error : Option String := none
  converged : Option Bool := none
  exec_time : Option Int := none
  time : Option (List α) := none
  n_points : Option Nat := none
  «variables» : Option (List (String × List α)) := none
  downsampled : Option Bool := none
  downsample_factor : Option Nat := none
  success : Option Bool := none

/-- `serialize_tds_results(system, variables, max_points)`: the
uninitialized branch returns only `initialized`/`error`; otherwise the
payload carries the (possibly downsampled) time axis, `n_points` set to
the FULL pre-downsampling length, and every selected variable column
sliced with the same factor computed from the time-axis length. -/
def serialize_tds_results [Inhabited α] (system : AndesSystem α)
    («variables» : Option (List String)) (max_points : Option Nat) :
    TdsPayload α :=
  if ¬ system.TDS.initialized then
    { initialized := some false
      error := some "Time-domain simulation not initialized" }
  else
    let time_array := system.dae.ts.t
    let pairs := selectVars system.dae «variables»
    let fac := downsampleFactor max_points time_array.length
    { initialized := some true
      converged := some (!system.TDS.busted)
      exec_time := system.TDS.exec_time
      time := some (match fac with
        | some s => everyNth time_array s
        | none => time_array)
      n_points := some time_array.length
      «variables» := some (pairs.map (fun p =>
        (p.1, match fac with
          | some s => everyNth p.2 s
          | none => p.2)))
      downsampled := some fac.isSome
      downsample_factor := fac }

/-- `MCPConfig.MAX_RESULT_POINTS` (config.py). -/
def MAX_RESULT_POINTS : Nat := 10000

/-- The `get_tds_results` tool (`tools/results.py`).  `system` is the
result of the session lookup (`None` when the session is absent or
expired).  A `max_points` of `None` is replaced by
`MCPConfig.MAX_RESULT_POINTS`; then the serializer runs and the tool sets
`results["success"] = True` on whatever dict the serializer returned —
including the "not initialized" error dict.  (The model assumes the
`hasattr(system, 'TDS')` guard passes, as it does for every ANDES system,
and elides the session-id text of the not-found message.) -/
def get_tds_results [Inhabited α] (system : Option (AndesSystem α))
    («variables» : Option (List String)) (max_points : Option Nat) :
    TdsPayload α :=
  match system with
  | none =>
      { success := some false
        error := some "Session not found" }
  | some sys =>
      let mp := match max_points with
        | none => some MAX_RESULT_POINTS
        | some v => some v
      let results := serialize_tds_results sys «variables» mp
      { results with success := some true }

/-! ### Session lifecycle manager (`utils/session.py`) -/

/-- A `Session` record: id, source path, creation and last-access
instants.  The exclusively owned engine `System` object and the (always
empty) `metadata` dict play no role in any registry claim and are elided;
ids are `Nat` tokens standing for the uuid4 strings. -/
structure Session where
  session_id : Nat
  created_at : Nat
  last_accessed : Nat
  case_path : String
deriving DecidableEq

/-- `Session.is_expired(timeout)`: `time.time() - self.last_accessed > timeout`,
evaluated at instant `now`. -/
def Session.is_expired (s : Session) (now timeout : Nat) : Bool :=
  decide (now - s.last_accessed > timeout)

/-- `SessionManager` state: the registry dict as an insertion-ordered
association list with unique ids, plus the two configuration bounds. -/
structure SessionManager where
  sessions : List Session
  max_sessions : Nat
  timeout : Nat
deriving DecidableEq

/-- `SessionManager._cleanup_expired`: delete every expired entry
(collect-then-delete in the source, order-preserving filter here). -/
def SessionManager.cleanup_expired (m : SessionManager) (now : Nat) : SessionManager :=
  { m with sessions := m.sessions.filter (fun s => ! s.is_expired now m.timeout) }

/-- One step of Python `min(..., key=lambda k: sessions[k].last_accessed)`:
keep the accumulator unless the next element is strictly older, so the
first minimum in iteration (= insertion) order wins. -/
def pickOlder (acc x : Session) : Session :=
  if x.last_accessed < acc.last_accessed then x else acc

/-- Python `min(self.sessions.keys(), key=…)` over the registry in
insertion order: the first session with the minimal `last_accessed`.
`none` on an empty registry, where CPython `min` raises `ValueError`;
`create_session` reaches that case only when `max_sessions = 0`. -/
def oldestSession : List Session → Option Session
  | [] => none
  | s :: rest => some (rest.foldl pickOlder s)

/-- The capacity-enforcement block of `create_session`: if
`len(self.sessions) >= self.max_sessions`, delete the entry with the
oldest `last_accessed` (Python `min` over keys, first minimum wins). -/
def SessionManager.evictIfFull (m : SessionManager) : SessionManager :=
  if m.sessions.length ≥ m.max_sessions then
    match oldestSession m.sessions with
    | some oldest =>
        { m with sessions :=
            m.sessions.eraseP (fun s => s.session_id == oldest.session_id) }
    | none => m
  else m

/-- `SessionManager.create_session`: expiry sweep first; then the
capacity check/eviction (`evictIfFull`); then insert a fresh session
(both timestamps `now`) under the new id.  `uuid.uuid4()` is modelled by
the caller-supplied `session_id`; the returned pair is
(new id, new state). -/
def SessionManager.create_session (m : SessionManager) (now session_id : Nat)
    (case_path : String) : Nat × SessionManager :=
  let m2 := (m.cleanup_expired now).evictIfFull
  (session_id,
   { m2 with sessions := m2.sessions ++ [⟨session_id, now, now, case_path⟩] })

/-- In-place timestamp touch of the (unique) entry with key `sid`:
`self.sessions[sid].last_accessed = now`. -/
def touchFirst : List Session → Nat → Nat → List Session
  | [], _, _ => []
  | s :: rest, sid, now =>
      if s.session_id == sid then { s with last_accessed := now } :: rest
      else s :: touchFirst rest sid now

/-- `SessionManager.get_session`: dict lookup; on a hit, an expired entry
is deleted and `None` returned, otherwise the entry is touched and
returned.  The returned pair is (result, new state). -/
def SessionManager.get_session (m : SessionManager) (now session_id : Nat) :
    Option Session × SessionManager :=
  match m.sessions.find? (fun s => s.session_id == session_id) with
  | none => (none, m)
  | some s =>
      if s.is_expired now m.timeout then
        (none, { m with sessions :=
            m.sessions.eraseP (fun x => x.session_id == session_id) })
      else
        (some { s with last_accessed := now },
         { m with sessions := touchFirst m.sessions session_id now })

/-- `SessionManager.close_session`: delete the entry if present and report
whether it existed.  No expiry sweep happens here. -/
def SessionManager.close_session (m : SessionManager) (session_id : Nat) :
    Bool × SessionManager :=
  if m.sessions.any (fun s => s.session_id == session_id) then
    (true, { m with sessions :=
        m.sessions.eraseP (fun s => s.session_id == session_id) })
  else (false, m)

/-- `SessionManager.list_sessions`: expiry sweep, then one metadata tuple
`(session_id, case_path, created_at, last_accessed)` per surviving entry. -/
def SessionManager.list_sessions (m : SessionManager) (now : Nat) :
    List (Nat × String × Nat × Nat) × SessionManager :=
  let m1 := m.cleanup_expired now
  (m1.sessions.map (fun s => (s.session_id, s.case_path, s.created_at, s.last_accessed)),
   m1)

/-- Folding `create_session` over a list of (instant, fresh id, path)
requests: the state after a whole sequence of `create` calls. -/
def createMany (m : SessionManager) (reqs : List (Nat × Nat × String)) :
    SessionManager :=
  reqs.foldl (fun st r => (st.create_session r.1 r.2.1 r.2.2).2) m

/-! ### Lemmas about the session manager -/

/-- The `min`-fold lands on the accumulator or on a list element. -/
theorem foldl_pickOlder_mem (rest : List Session) (acc : Session) :
    rest.foldl pickOlder acc = acc ∨ rest.foldl pickOlder acc ∈ rest := by
  induction rest generalizing acc with
  | nil => left; rfl
  | cons x xs ih =>
    simp only [List.foldl_cons]
    rcases ih (pickOlder acc x) with h | h
    · rw [h]
      unfold pickOlder
      split
      · right; exact List.mem_cons_self _ _
      · left; rfl
    · right; exact List.mem_cons_of_mem _ h

/-- The `min`-fold result is no younger than the accumulator and than any
list element. -/
theorem foldl_pickOlder_le (rest : List Session) (acc : Session) :
    (rest.foldl pickOlder acc).last_accessed ≤ acc.last_accessed ∧
    ∀ s ∈ rest, (rest.foldl pickOlder acc).last_accessed ≤ s.last_accessed := by
  induction rest generalizing acc with
  | nil => exact ⟨le_refl _, by simp⟩
  | cons x xs ih =>
    simp only [List.foldl_cons]
    obtain ⟨h1, h2⟩ := ih (pickOlder acc x)
    have hx : (pickOlder acc x).last_accessed ≤ acc.last_accessed ∧
        (pickOlder acc x).last_accessed ≤ x.last_accessed := by
      unfold pickOlder; split <;> omega
    refine ⟨le_trans h1 hx.1, ?_⟩
    intro s hs
    rcases List.mem_cons.mp hs with rfl | hs
    · exact le_trans h1 hx.2
    · exact h2 s hs

/-- `oldestSession` returns a member whose `last_accessed` is globally
minimal (the first such member in insertion order). -/
theorem oldestSession_spec (l : List Session) (ev : Session)
    (h : oldestSession l = some ev) :
    ev ∈ l ∧ ∀ s ∈ l, ev.last_accessed ≤ s.last_accessed := by
  cases l with
  | nil => simp [oldestSession] at h
  | cons a rest =>
    simp only [oldestSession, Option.some.injEq] at h
    subst h
    constructor
    · rcases foldl_pickOlder_mem rest a with h | h
      · rw [h]; exact List.mem_cons_self _ _
      · exact List.mem_cons_of_mem _ h
    · intro s hs
      obtain ⟨h1, h2⟩ := foldl_pickOlder_le rest a
      rcases List.mem_cons.mp hs with rfl | hs
      · exact h1
      · exact h2 s hs

/-- When the registry is at or above capacity (and the capacity is
positive), `evictIfFull` deletes exactly one entry: the one
`oldestSession` picks. -/
theorem evictIfFull_spec_full (m : SessionManager)
    (hcap : 1 ≤ m.max_sessions) (hge : m.sessions.length ≥ m.max_sessions) :
    ∃ ev, oldestSession m.sessions = some ev ∧ ev ∈ m.sessions ∧
      (∀ s ∈ m.sessions, ev.last_accessed ≤ s.last_accessed) ∧
      m.evictIfFull.sessions =
        m.sessions.eraseP (fun s => s.session_id == ev.session_id) ∧
      m.evictIfFull.sessions.length + 1 = m.sessions.length := by
  obtain ⟨a, rest, hl⟩ : ∃ a rest, m.sessions = a :: rest := by
    cases hl : m.sessions with
    | nil => rw [hl] at hge; simp at hge; omega
    | cons a rest => exact ⟨a, rest, rfl⟩
  obtain ⟨ev, hev⟩ : ∃ ev, oldestSession m.sessions = some ev := by
    rw [hl]; exact ⟨_, rfl⟩
  obtain ⟨hmem, hmin⟩ := oldestSession_spec _ _ hev
  have herase : m.evictIfFull.sessions =
      m.sessions.eraseP (fun s => s.session_id == ev.session_id) := by
    unfold SessionManager.evictIfFull
    rw [if_pos hge, hev]
  refine ⟨ev, hev, hmem, hmin, herase, ?_⟩
  rw [herase]
  exact List.length_eraseP_add_one hmem (by simp)

/-- Below capacity, `evictIfFull` is the identity. -/
theorem evictIfFull_not_full (m : SessionManager)
    (hlt : m.sessions.length < m.max_sessions) :
    m.evictIfFull = m := by
  unfold SessionManager.evictIfFull
  rw [if_neg (by omega)]

/-- `evictIfFull` keeps the configuration bounds. -/
theorem evictIfFull_max (m : SessionManager) :
    m.evictIfFull.max_sessions = m.max_sessions := by
  unfold SessionManager.evictIfFull
  split
  · split <;> rfl
  · rfl

/-- `evictIfFull` only removes entries. -/
theorem evictIfFull_subset (m : SessionManager) :
    m.evictIfFull.sessions ⊆ m.sessions := by
  unfold SessionManager.evictIfFull
  split
  · split
    · exact List.eraseP_subset _
    · exact fun _ h => h
  · exact fun _ h => h

/-- `create_session` keeps the configured capacity. -/
theorem create_session_max (m : SessionManager) (now sid : Nat) (cp : String) :
    ((m.create_session now sid cp).2).max_sessions = m.max_sessions := by
  unfold SessionManager.create_session
  exact evictIfFull_max (m.cleanup_expired now)

/-- One `create_session` call keeps the registry within capacity. -/
theorem create_session_capacity_step (m : SessionManager) (now sid : Nat)
    (cp : String) (hcap : 1 ≤ m.max_sessions)
    (hlen : m.sessions.length ≤ m.max_sessions) :
    ((m.create_session now sid cp).2).sessions.length ≤ m.max_sessions := by
  unfold SessionManager.create_session
  have h1 : (m.cleanup_expired now).sessions.length ≤ m.sessions.length :=
    List.length_filter_le _ _
  rcases le_or_lt (m.cleanup_expired now).max_sessions
      (m.cleanup_expired now).sessions.length with hge | hlt
  · obtain ⟨ev, _, _, _, _, hlen2⟩ :=
      evictIfFull_spec_full (m.cleanup_expired now) hcap hge
    simp only [List.length_append, List.length_cons, List.length_nil]
    omega
  · rw [evictIfFull_not_full _ hlt]
    simp only [List.length_append, List.length_cons, List.length_nil]
    have : (m.cleanup_expired now).max_sessions = m.max_sessions := rfl
    omega

/-- C3: For every sequence of `create_session` calls — including
sequences exceeding capacity — the registry size is at most
`max_sessions` at the moment each call returns.  (Capacity must be
positive and the starting registry within capacity; the process-wide
manager starts empty with capacity 100.  With capacity 0 the Python code
would raise `ValueError` from `min` over an empty dict instead of
returning.) -/
theorem claim_C3_create_capacity_invariant (m : SessionManager)
    (reqs : List (Nat × Nat × String))
    (hcap : 1 ≤ m.max_sessions) (hlen : m.sessions.length ≤ m.max_sessions) :
    (createMany m reqs).sessions.length ≤ m.max_sessions := by
  induction reqs generalizing m with
  | nil => exact hlen
  | cons r rest ih =>
    have hstep := create_session_capacity_step m r.1 r.2.1 r.2.2 hcap hlen
    have hmax := create_session_max m r.1 r.2.1 r.2.2
    have h2 := ih ((m.create_session r.1 r.2.1 r.2.2).2)
      (by rw [hmax]; exact hcap) (by rw [hmax]; exact hstep)
    rw [hmax] at h2
    simpa [createMany, List.foldl_cons] using h2

/-- C3 witness: three creates into an empty capacity-2 manager leave at
most 2 registered sessions. -/
theorem claim_C3_witness :
    (createMany ⟨[], 2, 3600⟩
      [(0, 1, "a"), (1, 2, "b"), (2, 3, "c")]).sessions.length ≤ 2 :=
  claim_C3_create_capacity_invariant ⟨[], 2, 3600⟩
    [(0, 1, "a"), (1, 2, "b"), (2, 3, "c")] (by decide) (by decide)

/-- C4: whenever `create_session` runs with post-sweep registry size at or
above capacity, exactly one session is evicted before the insert (the
erased list is one shorter), and it is the session `oldestSession` picks:
a member with the globally oldest `last_accessed`, the tie broken
deterministically in favour of the first such member in insertion
order. -/
theorem claim_C4_eviction_oldest (m : SessionManager) (now sid : Nat)
    (cp : String) (hcap : 1 ≤ m.max_sessions)
    (hfull : (m.cleanup_expired now).sessions.length ≥ m.max_sessions) :
    ∃ ev, oldestSession (m.cleanup_expired now).sessions = some ev ∧
      ev ∈ (m.cleanup_expired now).sessions ∧
      (∀ s ∈ (m.cleanup_expired now).sessions,
        ev.last_accessed ≤ s.last_accessed) ∧
      ((m.create_session now sid cp).2).sessions =
        ((m.cleanup_expired now).sessions.eraseP
          (fun s => s.session_id == ev.session_id)) ++ [⟨sid, now, now, cp⟩] ∧
      ((m.cleanup_expired now).sessions.eraseP
          (fun s => s.session_id == ev.session_id)).length + 1 =
        (m.cleanup_expired now).sessions.length := by
  obtain ⟨ev, hev, hmem, hmin, herase, hlen⟩ :=
    evictIfFull_spec_full (m.cleanup_expired now) hcap hfull
  refine ⟨ev, hev, hmem, hmin, ?_, ?_⟩
  · show ((m.cleanup_expired now).evictIfFull).sessions ++ _ = _
    rw [herase]
  · rw [← herase]
    exact hlen

/-- C4 witness: capacity 2, registry holding A (last accessed 0) and B
(last accessed 5); creating C at instant 10 evicts exactly A, the
globally oldest. -/
theorem claim_C4_witness :
    let m0 : SessionManager := ⟨[⟨1, 0, 0, "a"⟩, ⟨2, 0, 5, "b"⟩], 2, 3600⟩
    ∃ ev, oldestSession (m0.cleanup_expired 10).sessions = some ev ∧
      ev ∈ (m0.cleanup_expired 10).sessions ∧
      (∀ s ∈ (m0.cleanup_expired 10).sessions,
        ev.last_accessed ≤ s.last_accessed) ∧
      ((m0.create_session 10 3 "c").2).sessions =
        ((m0.cleanup_expired 10).sessions.eraseP
          (fun s => s.session_id == ev.session_id)) ++ [⟨3, 10, 10, "c"⟩] ∧
      ((m0.cleanup_expired 10).sessions.eraseP
          (fun s => s.session_id == ev.session_id)).length + 1 =
        (m0.cleanup_expired 10).sessions.length :=
  claim_C4_eviction_oldest
    ⟨[⟨1, 0, 0, "a"⟩, ⟨2, 0, 5, "b"⟩], 2, 3600⟩ 10 3 "c" (by decide) (by decide)


/-- After deleting the entry with key `sid` from a registry with unique
keys, no entry with that key remains. -/
theorem eraseP_sid_not_mem (l : List Session) (sid : Nat)
    (hU : (l.map Session.session_id).Nodup) :
    ∀ x ∈ l.eraseP (fun s => s.session_id == sid), x.session_id ≠ sid := by
  induction l with
  | nil => simp
  | cons a rest ih =>
    simp only [List.map_cons, List.nodup_cons] at hU
    obtain ⟨hna, hU'⟩ := hU
    intro x hx
    by_cases ha : (a.session_id == sid) = true
    · simp only [List.eraseP_cons, ha, cond_true] at hx
      have hasid : a.session_id = sid := by simpa using ha
      intro hxsid
      exact hna (by rw [← hasid] at hxsid; rw [← hxsid]; exact List.mem_map_of_mem _ hx)
    · have ha2 : (a.session_id == sid) = false := by simpa using ha
      simp only [List.eraseP_cons, ha2, cond_false] at hx
      rcases List.mem_cons.mp hx with rfl | hx
      · simpa using ha
      · exact ih hU' x hx

/-- The touched copy of the entry `find?` located is in the registry
after the touch. -/
theorem touchFirst_mem (l : List Session) (sid now : Nat) (s : Session)
    (hf : l.find? (fun x => x.session_id == sid) = some s) :
    { s with last_accessed := now } ∈ touchFirst l sid now := by
  induction l with
  | nil => simp [List.find?] at hf
  | cons a rest ih =>
    by_cases ha : (a.session_id == sid) = true
    · simp only [List.find?_cons, ha, cond_true] at hf
      obtain rfl : a = s := by simpa using hf
      simp [touchFirst, ha]
    · have ha2 : (a.session_id == sid) = false := by simpa using ha
      simp only [List.find?_cons, ha2, cond_false] at hf
      simp only [touchFirst, ha2, Bool.false_eq_true, if_false]
      exact List.mem_cons_of_mem _ (ih hf)

/-- Touching the entry with key `sid` keeps every other entry as it
was. -/
theorem touchFirst_mem_other (l : List Session) (sid now : Nat) :
    ∀ x ∈ l, x.session_id ≠ sid → x ∈ touchFirst l sid now := by
  induction l with
  | nil => simp
  | cons a rest ih =>
    intro x hx hne
    by_cases ha : (a.session_id == sid) = true
    · rcases List.mem_cons.mp hx with rfl | hx
      · exact absurd (by simpa using ha) hne
      · simp only [touchFirst, ha, if_true]
        exact List.mem_cons_of_mem _ hx
    · have ha2 : (a.session_id == sid) = false := by simpa using ha
      simp only [touchFirst, ha2, Bool.false_eq_true, if_false]
      rcases List.mem_cons.mp hx with rfl | hx
      · exact List.mem_cons_self _ _
      · exact List.mem_cons_of_mem _ (ih x hx hne)

/-- C6: `get_session(sid)` — an absent id yields `None` with the registry
untouched; a present but expired entry is removed from the registry and
`None` returned; a present fresh entry has `last_accessed` updated to
`now` and is returned, every other entry surviving.  (`hU`: registry keys
are unique, as Python dict keys are.) -/
theorem claim_C6_get_session_spec (m : SessionManager) (now sid : Nat)
    (hU : (m.sessions.map Session.session_id).Nodup) :
    (m.sessions.find? (fun s => s.session_id == sid) = none →
      m.get_session now sid = (none, m)) ∧
    (∀ s, m.sessions.find? (fun x => x.session_id == sid) = some s →
      s.is_expired now m.timeout = true →
      (m.get_session now sid).1 = none ∧
      (m.get_session now sid).2.sessions =
        m.sessions.eraseP (fun x => x.session_id == sid) ∧
      ∀ x ∈ (m.get_session now sid).2.sessions, x.session_id ≠ sid) ∧
    (∀ s, m.sessions.find? (fun x => x.session_id == sid) = some s →
      s.is_expired now m.timeout = false →
      (m.get_session now sid).1 = some { s with last_accessed := now } ∧
      { s with last_accessed := now } ∈ (m.get_session now sid).2.sessions ∧
      ∀ x ∈ m.sessions, x.session_id ≠ sid →
        x ∈ (m.get_session now sid).2.sessions) := by
  refine ⟨?_, ?_, ?_⟩
  · intro hf
    unfold SessionManager.get_session
    simp only [hf]
  · intro s hf hexp
    have hval : m.get_session now sid =
        (none, { m with sessions :=
          m.sessions.eraseP (fun x => x.session_id == sid) }) := by
      unfold SessionManager.get_session
      simp only [hf]
      rw [if_pos hexp]
    rw [hval]
    exact ⟨rfl, rfl, eraseP_sid_not_mem m.sessions sid hU⟩
  · intro s hf hexp
    have hval : m.get_session now sid =
        (some { s with last_accessed := now },
         { m with sessions := touchFirst m.sessions sid now }) := by
      unfold SessionManager.get_session
      simp only [hf]
      rw [if_neg (by simp [hexp])]
    rw [hval]
    exact ⟨rfl, touchFirst_mem m.sessions sid now s hf,
      touchFirst_mem_other m.sessions sid now⟩

/-- C6 witness: looking up the lone fresh session returns it with
`last_accessed` advanced to the lookup instant, and the touched entry is
registered. -/
theorem claim_C6_witness :
    ((⟨[⟨1, 0, 2, "a"⟩], 100, 3600⟩ : SessionManager).get_session 5 1).1 =
      some ⟨1, 0, 5, "a"⟩ ∧
    (⟨1, 0, 5, "a"⟩ : Session) ∈
      ((⟨[⟨1, 0, 2, "a"⟩], 100, 3600⟩ : SessionManager).get_session 5 1).2.sessions := by
  have h := (claim_C6_get_session_spec ⟨[⟨1, 0, 2, "a"⟩], 100, 3600⟩ 5 1
    (by decide)).2.2 ⟨1, 0, 2, "a"⟩ (by decide) (by decide)
  exact ⟨h.1, h.2.1⟩

/-- C8 (amended): the expiry sweep runs during `create_session` and
`list_sessions` — after either returns, no session expired at the
operation instant remains (the freshly inserted session is itself never
expired).  `get_session` and `close_session` do not sweep: they remove at
most the single requested entry (see the counterexample). -/
theorem claim_C8_amended_sweep (m : SessionManager) (now sid : Nat)
    (cp : String) :
    (∀ s ∈ ((m.create_session now sid cp).2).sessions,
      s.is_expired now m.timeout = false) ∧
    (∀ s ∈ (m.list_sessions now).2.sessions,
      s.is_expired now m.timeout = false) := by
  constructor
  · intro s hs
    have hrw : ((m.create_session now sid cp).2).sessions =
        ((m.cleanup_expired now).evictIfFull).sessions ++ [⟨sid, now, now, cp⟩] := rfl
    rw [hrw] at hs
    rcases List.mem_append.mp hs with hs | hs
    · have hs2 : s ∈ (m.cleanup_expired now).sessions := evictIfFull_subset _ hs
      simp only [SessionManager.cleanup_expired] at hs2
      have := List.mem_filter.mp hs2
      simpa using this.2
    · simp only [List.mem_singleton] at hs
      subst hs
      simp [Session.is_expired]
  · intro s hs
    have hrw : (m.list_sessions now).2.sessions =
        (m.cleanup_expired now).sessions := rfl
    rw [hrw] at hs
    simp only [SessionManager.cleanup_expired] at hs
    have := List.mem_filter.mp hs
    simpa using this.2

/-- C8 witness: after a create at instant 5 into a full capacity-1
manager with timeout 10, the surviving (fresh) session is not expired. -/
theorem claim_C8_witness :
    Session.is_expired ⟨2, 5, 5, "b"⟩ 5 10 = false :=
  (claim_C8_amended_sweep ⟨[⟨1, 0, 0, "a"⟩], 1, 10⟩ 5 2 "b").1
    ⟨2, 5, 5, "b"⟩ (by decide)

/-- C8 counterexample: with timeout 10, session 1 (idle since instant 0)
is already expired at instant 100, yet `close_session 2` returns
successfully while leaving session 1 registered — `close_session`
performs no expiry sweep, refuting "destroyed by TTL expiry during any
registry operation". -/
theorem claim_C8_counterexample :
    Session.is_expired ⟨1, 0, 0, "a"⟩ 100 10 = true ∧
    ((⟨[⟨1, 0, 0, "a"⟩, ⟨2, 0, 100, "b"⟩], 100, 10⟩ :
        SessionManager).close_session 2).1 = true ∧
    (⟨1, 0, 0, "a"⟩ : Session) ∈
      ((⟨[⟨1, 0, 0, "a"⟩, ⟨2, 0, 100, "b"⟩], 100, 10⟩ :
        SessionManager).close_session 2).2.sessions := by decide

/-! ### Lemmas about the downsampler -/

/-- The guard does not fire when the sequence is within the bound. -/
theorem downsampleFactor_none (mp L : Nat) (h : L ≤ mp) :
    downsampleFactor (some mp) L = none := by
  show (if mp ≠ 0 ∧ L > mp then some (L / mp) else none) = none
  rw [if_neg (by omega)]

/-- The guard fires exactly on a nonzero bound shorter than the
sequence. -/
theorem downsampleFactor_some (mp L : Nat) (hm : mp ≠ 0) (h : mp < L) :
    downsampleFactor (some mp) L = some (L / mp) := by
  show (if mp ≠ 0 ∧ L > mp then some (L / mp) else none) = some (L / mp)
  rw [if_pos ⟨hm, h⟩]

/-- A guard hit decomposes into its conditions. -/
theorem downsampleFactor_inv (mp : Option Nat) (L s : Nat)
    (h : downsampleFactor mp L = some s) :
    ∃ m, mp = some m ∧ m ≠ 0 ∧ m < L ∧ s = L / m := by
  cases mp with
  | none => simp [downsampleFactor] at h
  | some m =>
    have h2 : (if m ≠ 0 ∧ L > m then some (L / m) else none) = some s := h
    by_cases hc : m ≠ 0 ∧ L > m
    · rw [if_pos hc] at h2
      exact ⟨m, rfl, hc.1, hc.2, (Option.some.inj h2).symm⟩
    · rw [if_neg hc] at h2
      exact absurd h2 (by simp)

/-- Within the bound the sequence is returned unchanged. -/
theorem downsampleList_of_le (l : List α) (mp : Nat) (h : l.length ≤ mp) :
    downsampleList l (some mp) = l := by
  unfold downsampleList
  rw [downsampleFactor_none _ _ h]

/-- Above a nonzero bound the sequence is sliced with stride
`⌊L / mp⌋`. -/
theorem downsampleList_of_gt (l : List α) (mp : Nat) (hm : mp ≠ 0)
    (h : mp < l.length) :
    downsampleList l (some mp) = everyNth l (l.length / mp) := by
  unfold downsampleList
  rw [downsampleFactor_some _ _ hm h]

/-- For positive factors, the product dominates the sum minus one. -/
theorem add_le_mul_succ (a b : Nat) (ha : 1 ≤ a) (hb : 1 ≤ b) :
    a + b ≤ a * b + 1 := by
  obtain ⟨a', rfl⟩ := Nat.exists_eq_add_of_le ha
  obtain ⟨b', rfl⟩ := Nat.exists_eq_add_of_le hb
  have hexp : (1 + a') * (1 + b') = 1 + a' + b' + a' * b' := by ring
  omega

/-- Key bound: when downsampling fires with stride `s = ⌊L / mp⌋`, the
output length `⌈L / s⌉` stays strictly below `2 * mp`. -/
theorem downsample_length_lt (l : List α) (mp : Nat) (hm : 1 ≤ mp)
    (hL : mp < l.length) :
    (downsampleList l (some mp)).length < 2 * mp := by
  have hs : 1 ≤ l.length / mp :=
    (Nat.one_le_div_iff (by omega)).mpr (by omega)
  rw [downsampleList_of_gt l mp (by omega) hL,
    everyNth_length l (l.length / mp) hs]
  rw [Nat.div_lt_iff_lt_mul (by omega : 0 < l.length / mp)]
  have hmod : mp * (l.length / mp) + l.length % mp = l.length :=
    Nat.div_add_mod l.length mp
  have hr : l.length % mp < mp := Nat.mod_lt _ (by omega)
  have key : mp + l.length / mp ≤ mp * (l.length / mp) + 1 :=
    add_le_mul_succ mp (l.length / mp) hm hs
  have h2 : 2 * mp * (l.length / mp) = 2 * (mp * (l.length / mp)) := by ring
  rw [h2]
  omega

/-- C2 (amended): when downsampling triggers (`maxPoints ≥ 1` and
`L > maxPoints`), the computed stride `⌊L / maxPoints⌋` is at least 1 —
it reaches 2 exactly when `L ≥ 2 * maxPoints`, not always — and the
returned downsampled series contains at most `2 * maxPoints - 1` points
(not always at most `maxPoints`). -/
theorem claim_C2_amended (l : List α) (mp : Nat) (hm : 1 ≤ mp)
    (hL : mp < l.length) :
    1 ≤ l.length / mp ∧
    (2 ≤ l.length / mp ↔ 2 * mp ≤ l.length) ∧
    (downsampleList l (some mp)).length ≤ 2 * mp - 1 := by
  refine ⟨(Nat.one_le_div_iff (by omega)).mpr (by omega), ?_, ?_⟩
  · exact Nat.le_div_iff_mul_le (by omega)
  · have := downsample_length_lt l mp hm hL
    omega

/-- C2 witness: length 5 over bound 2 gives stride 2 and 3 returned
points (within the amended bound `2 * 2 - 1`). -/
theorem claim_C2_witness :
    1 ≤ ([0, 1, 2, 3, 4] : List Nat).length / 2 ∧
    (2 ≤ ([0, 1, 2, 3, 4] : List Nat).length / 2 ↔
      2 * 2 ≤ ([0, 1, 2, 3, 4] : List Nat).length) ∧
    (downsampleList ([0, 1, 2, 3, 4] : List Nat) (some 2)).length ≤ 2 * 2 - 1 :=
  claim_C2_amended [0, 1, 2, 3, 4] 2 (by decide) (by decide)

/-- C2 counterexample: length 3 with bound 2 triggers downsampling, but
the stride `⌊3 / 2⌋ = 1` is not `≥ 2` and the returned series keeps all
3 > 2 points. -/
theorem claim_C2_counterexample :
    ([0, 1, 2] : List Nat).length > 2 ∧
    ([0, 1, 2] : List Nat).length / 2 = 1 ∧
    ¬ (2 ≤ ([0, 1, 2] : List Nat).length / 2) ∧
    (downsampleList ([0, 1, 2] : List Nat) (some 2)).length = 3 ∧
    ¬ ((downsampleList ([0, 1, 2] : List Nat) (some 2)).length ≤ 2) := by
  decide

/-- C5: the downsampler is idempotent — re-applying it with the same
bound to its own output returns the output unchanged; for
`L ≤ maxPoints` the output equals the input; for `L > maxPoints` (with a
positive bound, as the guard requires) the output length is
`⌈L / stride⌉` with `stride = ⌊L / maxPoints⌋`. -/
theorem claim_C5_downsample_idempotent (l : List α) (mp : Nat) :
    downsampleList (downsampleList l (some mp)) (some mp) =
      downsampleList l (some mp) ∧
    (l.length ≤ mp → downsampleList l (some mp) = l) ∧
    (1 ≤ mp → mp < l.length →
      (downsampleList l (some mp)).length =
        (l.length + l.length / mp - 1) / (l.length / mp)) := by
  refine ⟨?_, fun h => downsampleList_of_le l mp h, ?_⟩
  · rcases Nat.lt_or_ge mp l.length with hL | hle
    · rcases Nat.eq_zero_or_pos mp with rfl | hm
      · have h0 : downsampleList l (some 0) = l := by
          unfold downsampleList
          have hf : downsampleFactor (some 0) l.length = none := by
            show (if (0 : Nat) ≠ 0 ∧ l.length > 0 then some (l.length / 0)
              else none) = none
            rw [if_neg (by simp)]
          rw [hf]
        rw [h0, h0]
      · have hlt := downsample_length_lt l mp hm hL
        rcases Nat.lt_or_ge mp (downsampleList l (some mp)).length with h2 | h2
        · have hs2 : (downsampleList l (some mp)).length / mp = 1 :=
            Nat.div_eq_of_lt_le (by omega) (by omega)
          rw [downsampleList_of_gt _ mp (by omega) h2, hs2, everyNth_one]
        · exact downsampleList_of_le _ mp h2
    · rw [downsampleList_of_le l mp hle, downsampleList_of_le l mp hle]
  · intro hm hL
    rw [downsampleList_of_gt l mp (by omega) hL,
      everyNth_length l _ ((Nat.one_le_div_iff (by omega)).mpr (by omega))]

/-- C5 witness: a length-7 series with bound 3 (stride 2, output
`[0, 2, 4, 6]`) is a fixed point of a second application, and its output
length matches `⌈L / stride⌉`. -/
theorem claim_C5_witness :
    downsampleList (downsampleList ([0, 1, 2, 3, 4, 5, 6] : List Nat) (some 3))
        (some 3) =
      downsampleList ([0, 1, 2, 3, 4, 5, 6] : List Nat) (some 3) ∧
    (downsampleList ([0, 1, 2, 3, 4, 5, 6] : List Nat) (some 3)).length =
      (([0, 1, 2, 3, 4, 5, 6] : List Nat).length +
        ([0, 1, 2, 3, 4, 5, 6] : List Nat).length / 3 - 1) /
        (([0, 1, 2, 3, 4, 5, 6] : List Nat).length / 3) :=
  ⟨(claim_C5_downsample_idempotent [0, 1, 2, 3, 4, 5, 6] 3).1,
   (claim_C5_downsample_idempotent [0, 1, 2, 3, 4, 5, 6] 3).2.2
     (by decide) (by decide)⟩

/-! ### Lemmas about the serializer -/

/-- In the initialized case the serializer produces the full payload,
with one downsampling factor computed from the time-axis length and
applied both to the time axis and to every selected variable column. -/
theorem serialize_tds_initialized [Inhabited α] (sys : AndesSystem α)
    («variables» : Option (List String)) (max_points : Option Nat)
    (hinit : sys.TDS.initialized = true) :
    serialize_tds_results sys «variables» max_points =
      { initialized := some true
        converged := some (!sys.TDS.busted)
        exec_time := sys.TDS.exec_time
        time := some (match downsampleFactor max_points sys.dae.ts.t.length with
          | some s => everyNth sys.dae.ts.t s
          | none => sys.dae.ts.t)
        n_points := some sys.dae.ts.t.length
        «variables» := some ((selectVars sys.dae «variables»).map (fun p =>
          (p.1, match downsampleFactor max_points sys.dae.ts.t.length with
            | some s => everyNth p.2 s
            | none => p.2)))
        downsampled := some (downsampleFactor max_points sys.dae.ts.t.length).isSome
        downsample_factor := downsampleFactor max_points sys.dae.ts.t.length } := by
  unfold serialize_tds_results
  rw [if_neg (by simp [hinit])]

/-- C1 (code-bug exhibit): for every session whose time-domain run has
not been initialized, `get_tds_results` does return the
"not initialized" error and no time or variable array data — but the
payload carries `success = True`, not `success = false`, because the
tool sets `results["success"] = True` unconditionally on whatever dict
`serialize_tds_results` returned, contradicting the claim and the tool's
own docstring ("success: True if results available"). -/
theorem claim_C1_not_initialized [Inhabited α] (sys : AndesSystem α)
    («variables» : Option (List String)) (max_points : Option Nat)
    (hinit : sys.TDS.initialized = false) :
    (get_tds_results (some sys) «variables» max_points).error =
      some "Time-domain simulation not initialized" ∧
    (get_tds_results (some sys) «variables» max_points).time = none ∧
    (get_tds_results (some sys) «variables» max_points).«variables» = none ∧
    (get_tds_results (some sys) «variables» max_points).n_points = none ∧
    (get_tds_results (some sys) «variables» max_points).success = some true := by
  have hser : ∀ mopt, serialize_tds_results sys «variables» mopt =
      ({ initialized := some false,
         error := some "Time-domain simulation not initialized" } :
        TdsPayload α) := by
    intro mopt
    unfold serialize_tds_results
    rw [if_pos (by simp [hinit])]
  have key : get_tds_results (some sys) «variables» max_points =
      ({ initialized := some false,
         error := some "Time-domain simulation not initialized",
         success := some true } : TdsPayload α) := by
    cases max_points <;> simp only [get_tds_results, hser]
  rw [key]
  exact ⟨rfl, rfl, rfl, rfl, rfl⟩

/-- C1 witness: a concrete uninitialized system produces the error
payload with `success = True` and no arrays. -/
theorem claim_C1_witness :
    (get_tds_results
        (some (⟨⟨false, false, none⟩, ⟨⟨[], [], []⟩, [], []⟩⟩ :
          AndesSystem Nat)) none none).error =
      some "Time-domain simulation not initialized" ∧
    (get_tds_results
        (some (⟨⟨false, false, none⟩, ⟨⟨[], [], []⟩, [], []⟩⟩ :
          AndesSystem Nat)) none none).time = none ∧
    (get_tds_results
        (some (⟨⟨false, false, none⟩, ⟨⟨[], [], []⟩, [], []⟩⟩ :
          AndesSystem Nat)) none none).«variables» = none ∧
    (get_tds_results
        (some (⟨⟨false, false, none⟩, ⟨⟨[], [], []⟩, [], []⟩⟩ :
          AndesSystem Nat)) none none).n_points = none ∧
    (get_tds_results
        (some (⟨⟨false, false, none⟩, ⟨⟨[], [], []⟩, [], []⟩⟩ :
          AndesSystem Nat)) none none).success = some true :=
  claim_C1_not_initialized
    ⟨⟨false, false, none⟩, ⟨⟨[], [], []⟩, [], []⟩⟩ none none rfl

/-- C9: a caller-supplied `max_points` of 0 is not `None`, so the tool
does not replace it with the default; in the serializer the Python
truthiness guard `if max_points and ...` treats 0 as absent, so no
downsampling happens regardless of the series length: the full time axis
and the full selected variable arrays come back with
`downsampled = False`. -/
theorem claim_C9_zero_max_points [Inhabited α] (sys : AndesSystem α)
    («variables» : Option (List String))
    (hinit : sys.TDS.initialized = true) :
    (get_tds_results (some sys) «variables» (some 0)).downsampled =
      some false ∧
    (get_tds_results (some sys) «variables» (some 0)).time =
      some sys.dae.ts.t ∧
    (get_tds_results (some sys) «variables» (some 0)).«variables» =
      some (selectVars sys.dae «variables») := by
  have hfac : downsampleFactor (some 0) sys.dae.ts.t.length = none := by
    show (if (0 : Nat) ≠ 0 ∧ sys.dae.ts.t.length > 0 then
      some (sys.dae.ts.t.length / 0) else none) = none
    rw [if_neg (by simp)]
  have key : get_tds_results (some sys) «variables» (some 0) =
      { initialized := some true
        converged := some (!sys.TDS.busted)
        exec_time := sys.TDS.exec_time
        time := some sys.dae.ts.t
        n_points := some sys.dae.ts.t.length
        «variables» := some (selectVars sys.dae «variables»)
        downsampled := some false
        downsample_factor := none
        success := some true } := by
    simp only [get_tds_results,
      serialize_tds_initialized sys «variables» (some 0) hinit, hfac,
      Option.isSome_none, Prod.mk.eta, List.map_id']
  rw [key]
  exact ⟨rfl, rfl, rfl⟩

/-- C9 witness: with three samples, one state variable and
`max_points = 0`, the payload keeps all three points undownsampled. -/
theorem claim_C9_witness :
    let sys : AndesSystem Nat :=
      ⟨⟨true, false, none⟩, ⟨⟨[7, 8, 9], [[1], [2], [3]], []⟩, ["w"], []⟩⟩
    (get_tds_results (some sys) none (some 0)).downsampled = some false ∧
    (get_tds_results (some sys) none (some 0)).time = some sys.dae.ts.t ∧
    (get_tds_results (some sys) none (some 0)).«variables» =
      some (selectVars sys.dae none) :=
  claim_C9_zero_max_points
    ⟨⟨true, false, none⟩, ⟨⟨[7, 8, 9], [[1], [2], [3]], []⟩, ["w"], []⟩⟩
    none rfl

/-- C10 (amended): `n_points` always reports the full pre-downsampling
time length; when downsampling fires, the time axis actually returned is
never longer than `n_points`, and it is strictly shorter whenever the
stride is at least 2 — but a stride of 1 (e.g. `L = 3`,
`max_points = 2`) returns every point, so `n_points` is not always
strictly greater (see the counterexample). -/
theorem claim_C10_amended [Inhabited α] (sys : AndesSystem α)
    («variables» : Option (List String)) (max_points : Option Nat)
    (hinit : sys.TDS.initialized = true) :
    (serialize_tds_results sys «variables» max_points).n_points =
      some sys.dae.ts.t.length ∧
    (∀ s tl,
      (serialize_tds_results sys «variables» max_points).downsample_factor =
        some s →
      (serialize_tds_results sys «variables» max_points).time = some tl →
      tl.length ≤ sys.dae.ts.t.length ∧
      (2 ≤ s → tl.length < sys.dae.ts.t.length)) := by
  rw [serialize_tds_initialized sys «variables» max_points hinit]
  refine ⟨rfl, ?_⟩
  intro s tl hfac htime
  have hfac2 : downsampleFactor max_points sys.dae.ts.t.length = some s := hfac
  obtain ⟨m, hmp, hm0, hmL, hseq⟩ := downsampleFactor_inv _ _ _ hfac2
  have hs1 : 1 ≤ s := by
    rw [hseq]
    exact (Nat.one_le_div_iff (by omega)).mpr (by omega)
  have htl : tl = everyNth sys.dae.ts.t s := by
    have htime2 : some (match downsampleFactor max_points sys.dae.ts.t.length
        with
      | some s => everyNth sys.dae.ts.t s
      | none => sys.dae.ts.t) = some tl := htime
    rw [hfac2] at htime2
    exact (Option.some.inj htime2).symm
  subst htl
  rw [everyNth_length _ _ hs1]
  have hL2 : 2 ≤ sys.dae.ts.t.length := by omega
  constructor
  · have key := add_le_mul_succ sys.dae.ts.t.length s (by omega) hs1
    rw [Nat.div_le_iff_le_mul_add_pred (by omega : 0 < s)]
    have hcomm : s * sys.dae.ts.t.length = sys.dae.ts.t.length * s := by ring
    omega
  · intro hs2
    rw [Nat.div_lt_iff_lt_mul (by omega : 0 < s)]
    have key := Nat.add_le_mul hL2 hs2
    omega

/-- C10 counterexample: three samples with bound 2 trigger downsampling
with stride 1; `n_points` is 3 and the returned time axis also has 3
points, so `n_points` is not strictly greater. -/
theorem claim_C10_counterexample :
    (serialize_tds_results
        (⟨⟨true, false, none⟩, ⟨⟨[0, 1, 2], [], []⟩, [], []⟩⟩ :
          AndesSystem Nat) none (some 2)).downsampled = some true ∧
    (serialize_tds_results
        (⟨⟨true, false, none⟩, ⟨⟨[0, 1, 2], [], []⟩, [], []⟩⟩ :
          AndesSystem Nat) none (some 2)).n_points = some 3 ∧
    (serialize_tds_results
        (⟨⟨true, false, none⟩, ⟨⟨[0, 1, 2], [], []⟩, [], []⟩⟩ :
          AndesSystem Nat) none (some 2)).time = some [0, 1, 2] ∧
    ¬ (3 > ([0, 1, 2] : List Nat).length) := by decide

/-- C10 witness: five samples with bound 2 give stride 2 and returned
time `[0, 2, 4]`: three points, strictly fewer than `n_points = 5`. -/
theorem claim_C10_witness :
    ([0, 2, 4] : List Nat).length ≤ 5 ∧
    (2 ≤ 2 → ([0, 2, 4] : List Nat).length < 5) :=
  (claim_C10_amended
    (⟨⟨true, false, none⟩, ⟨⟨[0, 1, 2, 3, 4], [], []⟩, [], []⟩⟩ :
      AndesSystem Nat) none (some 2) rfl).2 2 [0, 2, 4]
    (by decide) (by decide)

/-- C7: when a time-domain result is downsampled, one shared stride `s`
(the payload's `downsample_factor`) is applied to the time axis and to
every selected variable column: the returned time is
`time[::s]`, the returned variables are exactly the selected columns
sliced `col[::s]`, output index `i` of either array originates from
original sample index `i * s`, and every returned variable array has the
same length as the returned time axis (given the engine invariant that
each column is as long as the time axis). -/
theorem claim_C7_shared_stride [Inhabited α] (sys : AndesSystem α)
    («variables» : Option (List String)) (max_points : Option Nat)
    (hcols : ∀ p ∈ selectVars sys.dae «variables»,
      p.2.length = sys.dae.ts.t.length)
    (hds : (serialize_tds_results sys «variables» max_points).downsampled =
      some true) :
    ∃ s, 1 ≤ s ∧
      (serialize_tds_results sys «variables» max_points).downsample_factor =
        some s ∧
      (serialize_tds_results sys «variables» max_points).time =
        some (everyNth sys.dae.ts.t s) ∧
      (serialize_tds_results sys «variables» max_points).«variables» =
        some ((selectVars sys.dae «variables»).map
          (fun p => (p.1, everyNth p.2 s))) ∧
      (∀ i, i < (everyNth sys.dae.ts.t s).length →
        (everyNth sys.dae.ts.t s).getD i default =
          sys.dae.ts.t.getD (i * s) default) ∧
      (∀ p ∈ selectVars sys.dae «variables»,
        (everyNth p.2 s).length = (everyNth sys.dae.ts.t s).length ∧
        (∀ i, i < (everyNth p.2 s).length →
          (everyNth p.2 s).getD i default = p.2.getD (i * s) default)) := by
  have hinit : sys.TDS.initialized = true := by
    cases hb : sys.TDS.initialized
    · exfalso
      have hnone : (serialize_tds_results sys «variables» max_points).downsampled
          = none := by
        unfold serialize_tds_results
        rw [if_pos (by simp [hb])]
      rw [hnone] at hds
      exact Option.noConfusion hds
    · rfl
  rw [serialize_tds_initialized sys «variables» max_points hinit] at hds ⊢
  have hds2 : (downsampleFactor max_points sys.dae.ts.t.length).isSome = true := by
    simpa using hds
  obtain ⟨s, hfac⟩ := Option.isSome_iff_exists.mp hds2
  obtain ⟨m, hmp, hm0, hmL, hseq⟩ := downsampleFactor_inv _ _ _ hfac
  have hs1 : 1 ≤ s := by
    rw [hseq]
    exact (Nat.one_le_div_iff (by omega)).mpr (by omega)
  refine ⟨s, hs1, ?_, ?_, ?_, ?_, ?_⟩
  · show downsampleFactor max_points sys.dae.ts.t.length = some s
    exact hfac
  · show some (match downsampleFactor max_points sys.dae.ts.t.length with
      | some s => everyNth sys.dae.ts.t s
      | none => sys.dae.ts.t) = _
    rw [hfac]
  · show some ((selectVars sys.dae «variables»).map (fun p =>
      (p.1, match downsampleFactor max_points sys.dae.ts.t.length with
        | some s => everyNth p.2 s
        | none => p.2))) = _
    rw [hfac]
  · intro i hi
    exact everyNth_getD sys.dae.ts.t s hs1 default i hi
  · intro p hp
    refine ⟨?_, ?_⟩
    · rw [everyNth_length _ _ hs1, everyNth_length _ _ hs1, hcols p hp]
    · intro i hi
      exact everyNth_getD p.2 s hs1 default i hi

/-- C7 witness: five samples, one state variable, bound 2: the shared
stride is 2 and time and variable stay index-aligned. -/
theorem claim_C7_witness :
    let sys : AndesSystem Nat :=
      ⟨⟨true, false, none⟩, ⟨⟨[0, 1, 2, 3, 4],
        [[10], [11], [12], [13], [14]], []⟩, ["w"], []⟩⟩
    ∃ s, 1 ≤ s ∧
      (serialize_tds_results sys none (some 2)).downsample_factor = some s ∧
      (serialize_tds_results sys none (some 2)).time =
        some (everyNth sys.dae.ts.t s) ∧
      (serialize_tds_results sys none (some 2)).«variables» =
        some ((selectVars sys.dae none).map
          (fun p => (p.1, everyNth p.2 s))) ∧
      (∀ i, i < (everyNth sys.dae.ts.t s).length →
        (everyNth sys.dae.ts.t s).getD i default =
          sys.dae.ts.t.getD (i * s) default) ∧
      (∀ p ∈ selectVars sys.dae none,
        (everyNth p.2 s).length = (everyNth sys.dae.ts.t s).length ∧
        (∀ i, i < (everyNth p.2 s).length →
          (everyNth p.2 s).getD i default = p.2.getD (i * s) default)) :=
  claim_C7_shared_stride
    ⟨⟨true, false, none⟩, ⟨⟨[0, 1, 2, 3, 4],
      [[10], [11], [12], [13], [14]], []⟩, ["w"], []⟩⟩
    none (some 2) (by decide) (by decide)
